import Mathlib

/-!
# Verification of the Carrion language server's semantic analysis engine

Shallow embedding of the analyzer (`internal/analyzer/analyzer.go`), the
feature providers (`internal/analyzer/features.go`), the formatter and the
Bifrost package integration (both in the `analyzer` package), translated
from the Go source.

Modelling conventions:
* Go `map[string]T` values are modelled as insertion-ordered association
  lists (`AList`).  Lookup and overwrite-on-insert match Go's semantics
  exactly; Go's map iteration order is unspecified, and the association
  list order is one determinization of it.
* Go strings are modelled as Lean `String`s; byte indexing in the source
  is modelled as character indexing (the two agree on ASCII text, which
  is all the analyzed positions touch).
* The upstream Carrion lexer/parser/evaluator is an external dependency
  (module `TheCarrionLanguage`), consumed as a black box.  AST values are
  therefore taken as inputs; where a code path calls into the evaluator
  the embedding abstracts that call as an oracle parameter.
* The AST fragment covers the statement and expression constructors that
  the analyzed code paths dispatch on; parameter expressions are modelled
  in their identifier form.
-/

namespace CarrionLSP

/-- Association list standing in for a Go `map[string]α`. -/
abbrev AList (α : Type) := List (String × α)

/-- Map lookup: first binding wins (inserts keep keys unique). -/
def alookup {α : Type} : AList α → String → Option α
  | [], _ => none
  | (k, v) :: rest, key => if k = key then some v else alookup rest key

/-- Go map insert: overwrite the binding in place, else append. -/
def ainsert {α : Type} : AList α → String → α → AList α
  | [], key, v => [(key, v)]
  | (k, w) :: rest, key, v =>
      if k = key then (k, v) :: rest else (k, w) :: ainsert rest key v

/-! ## Structural string helpers

Kernel-reducible models of the `strings` package functions the analyzed
code uses (`Split` on a one-character separator, `HasPrefix`,
`HasSuffix`, `TrimSuffix`, `Contains`, `ToLower`, prefix slicing);
each works on the character list of the string. -/

/-- Go `strings.Split(s, sep)` for a one-character separator. -/
def splitOnCharAux (c : Char) : List Char → List Char → List String
  | [], acc => [String.mk acc.reverse]
  | x :: xs, acc =>
      if x = c then String.mk acc.reverse :: splitOnCharAux c xs []
      else splitOnCharAux c xs (x :: acc)

/-- Go `strings.Split(s, sep)` for a one-character separator. -/
def splitOnChar (c : Char) (s : String) : List String :=
  splitOnCharAux c s.data []

/-- Character-list prefix test. -/
def listIsPrefix : List Char → List Char → Bool
  | [], _ => true
  | _ :: _, [] => false
  | a :: as, b :: bs => a == b && listIsPrefix as bs

/-- Go `strings.HasPrefix(s, p)`. -/
def strHasPrefix (s p : String) : Bool :=
  listIsPrefix p.data s.data

/-- Go `strings.HasSuffix(s, suf)`. -/
def strHasSuffix (s suf : String) : Bool :=
  listIsPrefix suf.data.reverse s.data.reverse

/-- Go `strings.Contains(s, pat)`. -/
def containsSubAux (pat : List Char) : List Char → Bool
  | [] => listIsPrefix pat []
  | c :: cs => listIsPrefix pat (c :: cs) || containsSubAux pat cs

/-- Go `strings.Contains(s, pat)`. -/
def containsSubstring (s pat : String) : Bool :=
  containsSubAux pat.data s.data

/-- Go `strings.ToLower` (character-wise). -/
def strToLower (s : String) : String :=
  String.mk (s.data.map Char.toLower)

/-- Slice `s[:n]` of a Go string (character-indexed model). -/
def strTake (s : String) (n : Nat) : String :=
  String.mk (s.data.take n)

/-- Drop the last `n` characters. -/
def strDropRight (s : String) (n : Nat) : String :=
  String.mk (s.data.take (s.data.length - n))

/-! ## Protocol types

The `internal/protocol` package's shapes, as exercised by the analyzer
(constant numeric codes are irrelevant to the claims; kinds are enums). -/

structure Range where
  startLine : Nat
  startCharacter : Nat
  endLine : Nat
  endCharacter : Nat
deriving DecidableEq, Repr

inductive CompletionItemKind where
  | kText
  | kMethod
  | kFunction
  | kConstructor
  | kField
  | kVariable
  | kClass
  | kKeyword
deriving DecidableEq, Repr

inductive InsertTextFormat where
  | unset
  | plainText
  | snippet
deriving DecidableEq, Repr

structure CompletionItem where
  label : String
  kind : CompletionItemKind
  detail : String := ""
  documentation : String := ""
  insertText : String := ""
  insertTextFormat : InsertTextFormat := InsertTextFormat.unset
deriving DecidableEq, Repr

/-! ## AST fragment (from `TheCarrionLanguage/src/ast`, as dispatched on) -/

inductive Expr where
  | intLit (v : Int)
  | stringLit (s : String)
  | boolLit (b : Bool)
  | noneLit
  | ident (name : String)
  | call (fn : Expr) (args : List Expr)
  | binop (l : Expr) (op : String) (r : Expr)
  | dot (l : Expr) (field : String)
deriving Repr

mutual

inductive Stmt where
  | spellDef (fn : FuncDef)
  | grimDef (name : String) (inherits : Option String) (docString : Option String)
      (initMethod : Option FuncDef) (methods : List FuncDef)
  | assign (target : Expr) (op : String) (value : Expr)
  | exprStmt (e : Expr)
  | ifStmt (cond : Expr) (conseq : List Stmt)
      (otherwiseBranches : List (Expr × List Stmt)) (alt : Option (List Stmt))
  | forStmt (variableE : Expr) (iterable : Expr) (body : List Stmt)
  | whileStmt (cond : Expr) (body : List Stmt)
  | returnStmt (value : Option Expr)
  | importStmt (filePath : Option String) (className : Option String) (aliasName : Option String)
  | mainStmt (body : List Stmt)
  | globalStmt (names : List String)
deriving Repr

/-- `ast.FunctionDefinition`: name, parameters (identifier form), docstring, body. -/
inductive FuncDef where
  | mk (name : String) (params : List String) (docString : Option String) (body : List Stmt)
deriving Repr

end

def FuncDef.name : FuncDef → String
  | .mk n _ _ _ => n

def FuncDef.params : FuncDef → List String
  | .mk _ p _ _ => p

def FuncDef.docString : FuncDef → Option String
  | .mk _ _ d _ => d

def FuncDef.body : FuncDef → List Stmt
  | .mk _ _ _ b => b

/-! ## Analyzer symbol tables (`internal/analyzer/analyzer.go`) -/

structure Parameter where
  name : String
  typeHint : String := ""
  defaultValue : String := ""
  range : Range := ⟨0, 0, 0, 0⟩
deriving DecidableEq, Repr

structure VariableSymbol where
  name : String
  range : Range
  type : String := ""
  value : String := ""
  isGlobal : Bool := false
deriving DecidableEq, Repr

structure SpellSymbol where
  name : String
  range : Range
  parameters : List Parameter
  returnType : String := ""
  isInit : Bool := false
  isStatic : Bool := false
  isPrivate : Bool := false
  isProtected : Bool := false
  docString : String := ""
  grimoire : String := ""
deriving DecidableEq, Repr

structure GrimoireSymbol where
  name : String
  range : Range
  initSpell : Option SpellSymbol := none
  spells : AList SpellSymbol := []
  isArcane : Bool := false
  inherits : String := ""
  docString : String := ""
deriving DecidableEq, Repr

structure ImportSymbol where
  name : String
  range : Range
  path : String := ""
  aliasName : String := ""
  className : String := ""
deriving DecidableEq, Repr

/-- The `Variables` field is called `vars` here (`variables` is reserved in Lean). -/
structure SymbolTable where
  grimoires : AList GrimoireSymbol
  spells : AList SpellSymbol
  vars : AList VariableSymbol
  imports : AList ImportSymbol
deriving DecidableEq, Repr

structure BuiltinInfo where
  name : String
  type : String := "function"
  description : String := ""
  parameters : List Parameter := []
  returnType : String := ""
deriving DecidableEq, Repr

structure GrimoireInfo where
  name : String
  description : String := ""
  spells : AList BuiltinInfo := []
  isStatic : Bool := false
deriving DecidableEq, Repr

/-- `astNodeToRange` in the source returns a constant zero range (a
documented placeholder); the embedding mirrors that constant. -/
def astNodeToRange : Range := ⟨0, 0, 0, 0⟩

def emptySymbolTable : SymbolTable := ⟨[], [], [], []⟩

/-! ## Type inference and symbol extraction (`analyzer.go`) -/

/-- `inferTypeWithContext`: literal types, constructor-call recognition
against the document's grimoires then the catalog's, and identifier
lookup in the variable table (falling back to the identifier's text). -/
def inferTypeWithContext (carriongGrimoires : AList GrimoireInfo)
    (expr : Expr) (symbols : SymbolTable) : String :=
  match expr with
  | .intLit _ => "int"
  | .stringLit _ => "string"
  | .boolLit _ => "bool"
  | .noneLit => "None"
  | .call fn _ =>
      match fn with
      | .ident fname =>
          if (alookup symbols.grimoires fname).isSome then fname
          else if (alookup carriongGrimoires fname).isSome then fname
          else "unknown"
      | _ => "unknown"
  | .ident name =>
      match alookup symbols.vars name with
      | some v => v.type
      | none => name
  | .binop .. => "unknown"
  | .dot .. => "unknown"

/-- `extractParameters` on the identifier form of parameter expressions. -/
def extractParameters (params : List String) : List Parameter :=
  params.map fun p => { name := p, range := astNodeToRange }

/-- `analyzeVariable`: record one `VariableSymbol` per simple identifier
target, with the type inferred from the assigned value. -/
def analyzeVariable (carriongGrimoires : AList GrimoireInfo)
    (target : Expr) (value : Expr) (symbols : SymbolTable) : SymbolTable :=
  match target with
  | .ident name =>
      let t := inferTypeWithContext carriongGrimoires value symbols
      { symbols with
        vars := ainsert symbols.vars name
          { name := name, range := astNodeToRange, type := t } }
  | _ => symbols

/-- `analyzeBlockStatement`: recursive descent collecting nested
assignments; `if` descends into consequence and alternative only,
`for` and `while` into their bodies; other statements are skipped. -/
def analyzeBlockStmts (carriongGrimoires : AList GrimoireInfo) :
    List Stmt → SymbolTable → SymbolTable
  | [], s => s
  | .assign t _ v :: rest, s =>
      analyzeBlockStmts carriongGrimoires rest
        (analyzeVariable carriongGrimoires t v s)
  | .ifStmt _ conseq _ (some alt) :: rest, s =>
      analyzeBlockStmts carriongGrimoires rest
        (analyzeBlockStmts carriongGrimoires alt
          (analyzeBlockStmts carriongGrimoires conseq s))
  | .ifStmt _ conseq _ none :: rest, s =>
      analyzeBlockStmts carriongGrimoires rest
        (analyzeBlockStmts carriongGrimoires conseq s)
  | .forStmt _ _ body :: rest, s =>
      analyzeBlockStmts carriongGrimoires rest
        (analyzeBlockStmts carriongGrimoires body s)
  | .whileStmt _ body :: rest, s =>
      analyzeBlockStmts carriongGrimoires rest
        (analyzeBlockStmts carriongGrimoires body s)
  | _ :: rest, s => analyzeBlockStmts carriongGrimoires rest s

/-- `strings.TrimSuffix`. -/
def trimSuffixStr (s suf : String) : String :=
  if strHasSuffix s suf then strDropRight s suf.length else s

/-- Model of `filepath.Base` for the slash-separated paths the analyzer
handles. -/
def filepathBase (p : String) : String :=
  if p = "" then "."
  else
    match ((splitOnChar '/' p).filter (fun s => s ≠ "")).getLast? with
    | some s => s
    | none => "/"

/-- `analyzeImport`: the key is the alias if present, else the imported
class name, else the basename of the path without `.crl`. -/
def analyzeImport (filePath className aliasName : Option String)
    (symbols : SymbolTable) : SymbolTable :=
  let pn : String × String :=
    match filePath with
    | some fp => (fp, filepathBase (trimSuffixStr fp ".crl"))
    | none => ("", "")
  let cn : String × String :=
    match className with
    | some c => (c, c)
    | none => ("", pn.2)
  let an : String × String :=
    match aliasName with
    | some a => (a, a)
    | none => ("", cn.2)
  { symbols with
    imports := ainsert symbols.imports an.2
      { name := an.2, range := astNodeToRange, path := pn.1,
        aliasName := an.1, className := cn.1 } }

/-- `analyzeSpell`: insert the top-level function's symbol (no owner
class), then scan the body for local variables. -/
def analyzeSpell (carriongGrimoires : AList GrimoireInfo)
    (fd : FuncDef) (symbols : SymbolTable) : SymbolTable :=
  let spell : SpellSymbol :=
    { name := fd.name, range := astNodeToRange,
      parameters := extractParameters fd.params,
      docString := fd.docString.getD "" }
  let s1 := { symbols with spells := ainsert symbols.spells fd.name spell }
  analyzeBlockStmts carriongGrimoires fd.body s1

/-- The `SpellSymbol` a grimoire method is recorded as: keyed by its bare
name, with the owner class (`Grimoire`) field set. -/
def mkMethodSymbol (gname : String) (m : FuncDef) : SpellSymbol :=
  { name := m.name, range := astNodeToRange,
    parameters := extractParameters m.params, grimoire := gname,
    docString := m.docString.getD "" }

/-- The `SpellSymbol` a constructor is recorded as (key `"init"`). -/
def mkInitSymbol (gname : String) (ifd : FuncDef) : SpellSymbol :=
  { name := "init", range := astNodeToRange,
    parameters := extractParameters ifd.params, isInit := true,
    grimoire := gname, docString := ifd.docString.getD "" }

/-- One iteration of `analyzeGrimoire`'s method loop: scan the body for
local variables, then insert the method into the class's method map and
the flat per-document spell table. -/
def grimMethodStep (carriongGrimoires : AList GrimoireInfo) (gname : String)
    (acc : AList SpellSymbol × SymbolTable) (m : FuncDef) :
    AList SpellSymbol × SymbolTable :=
  let spell := mkMethodSymbol gname m
  let sBody := analyzeBlockStmts carriongGrimoires m.body acc.2
  (ainsert acc.1 m.name spell,
    { sBody with spells := ainsert sBody.spells m.name spell })

/-- Constructor handling of `analyzeGrimoire`: build the `init` spell
symbol, scan the constructor body for local variables, insert the
symbol under key `"init"`. -/
def grimInitState (carriongGrimoires : AList GrimoireInfo) (gname : String)
    (initMethod : Option FuncDef) (symbols : SymbolTable) :
    Option SpellSymbol × SymbolTable :=
  match initMethod with
  | some ifd =>
      let initSpell := mkInitSymbol gname ifd
      let sBody := analyzeBlockStmts carriongGrimoires ifd.body symbols
      (some initSpell,
        { sBody with spells := ainsert sBody.spells "init" initSpell })
  | none => (none, symbols)

/-- `analyzeGrimoire`: constructor under key `"init"` and every method
under its bare name go into both the class's method map and the flat
per-document spell table (with the owner class name set); method bodies
are scanned for local variables; finally the class symbol is inserted. -/
def analyzeGrimoire (carriongGrimoires : AList GrimoireInfo)
    (name : String) (inherits docString : Option String)
    (initMethod : Option FuncDef) (methods : List FuncDef)
    (symbols : SymbolTable) : SymbolTable :=
  let initPair := grimInitState carriongGrimoires name initMethod symbols
  let folded := methods.foldl (grimMethodStep carriongGrimoires name) ([], initPair.2)
  let grimoire : GrimoireSymbol :=
    { name := name, range := astNodeToRange, initSpell := initPair.1,
      spells := folded.1, isArcane := false,
      inherits := inherits.getD "", docString := docString.getD "" }
  { folded.2 with grimoires := ainsert folded.2.grimoires name grimoire }

/-- `buildSymbolTable`: walk top-level statements, dispatching on class
definitions, function definitions, assignments and imports. -/
def buildSymbolTable (carriongGrimoires : AList GrimoireInfo)
    (stmts : List Stmt) : SymbolTable :=
  stmts.foldl
    (fun s stmt =>
      match stmt with
      | .grimDef n inh d im ms =>
          analyzeGrimoire carriongGrimoires n inh d im ms s
      | .spellDef fd => analyzeSpell carriongGrimoires fd s
      | .assign t _ v => analyzeVariable carriongGrimoires t v s
      | .importStmt fp cn al => analyzeImport fp cn al s
      | _ => s)
    emptySymbolTable

/-! ## Document store (`analyzer.go`)

A document record holds the source text, the derived symbol table and a
monotonic version; the AST and token stream fields are produced by the
external parser and are not part of the claims' state. -/

structure Document where
  uri : String
  content : String
  symbols : SymbolTable
  version : Nat
deriving DecidableEq, Repr

/-- `getNextVersion`: previous version plus one, or 1 for a new URI. -/
def getNextVersion (documents : AList Document) (uri : String) : Nat :=
  match alookup documents uri with
  | some doc => doc.version + 1
  | none => 1

/-- `UpdateDocument` (state-passing form): build the record from the
parsed program and insert it. -/
def updateDocument (carriongGrimoires : AList GrimoireInfo)
    (documents : AList Document) (uri content : String)
    (program : List Stmt) : AList Document :=
  let doc : Document :=
    { uri := uri, content := content,
      symbols := buildSymbolTable carriongGrimoires program,
      version := getNextVersion documents uri }
  ainsert documents uri doc

/-- A sequence of `UpdateDocument` calls, oldest first. -/
def applyUpdates (carriongGrimoires : AList GrimoireInfo)
    (documents : AList Document) :
    List (String × String × List Stmt) → AList Document
  | [] => documents
  | (uri, content, program) :: rest =>
      applyUpdates carriongGrimoires
        (updateDocument carriongGrimoires documents uri content program) rest

/-! ## Feature providers (`internal/analyzer/features.go`) -/

/-- `formatParameters` (and `formatSpellParameters`, which delegates to
it): `name[: hint][ = default]`, comma-joined. -/
def formatParameters (params : List Parameter) : String :=
  String.intercalate ", " (params.map fun p =>
    let part := p.name
    let part := if p.typeHint ≠ "" then part ++ ": " ++ p.typeHint else part
    let part := if p.defaultValue ≠ "" then part ++ " = " ++ p.defaultValue else part
    part)

/-- The token before the dot: trim one trailing `.`, split on spaces,
take the last part. -/
def extractObjectName (pfx : String) : String :=
  (splitOnChar ' ' (trimSuffixStr pfx ".")).getLastD ""

/-- Completion item for a catalog method (`BuiltinInfo`). -/
def builtinSpellItem (label : String) (spell : BuiltinInfo) : CompletionItem :=
  { label := label, kind := .kMethod,
    detail := "spell " ++ spell.name ++ "(" ++ formatParameters spell.parameters
      ++ ") -> " ++ spell.returnType,
    documentation := spell.description,
    insertText := spell.name ++ "(${1})",
    insertTextFormat := .snippet }

/-- Completion item for a document-class method (`SpellSymbol`). -/
def docSpellItem (label : String) (spell : SpellSymbol) : CompletionItem :=
  { label := label, kind := .kMethod,
    detail := "spell " ++ spell.name ++ "(" ++ formatParameters spell.parameters
      ++ ") -> " ++ spell.returnType,
    documentation := spell.docString,
    insertText := spell.name ++ "(${1})",
    insertTextFormat := .snippet }

/-- The primitive-type → method-bearing-class map in `getMethodCompletions`. -/
def primitiveToGrimoire : String → Option String
  | "string" => some "String"
  | "int" => some "Integer"
  | "float" => some "Float"
  | "bool" => some "Boolean"
  | "array" => some "Array"
  | _ => none

/-- `getMethodCompletions`: catalog class named before the dot, then a
variable resolved through document classes, catalog classes and the
primitive map; the yields are concatenated (no deduplication step). -/
def getMethodCompletions (carriongGrimoires : AList GrimoireInfo)
    (symbols : SymbolTable) (pfx : String) : List CompletionItem :=
  let objectName := extractObjectName pfx
  let fromCatalogName :=
    match alookup carriongGrimoires objectName with
    | some grimoire => grimoire.spells.map fun p => builtinSpellItem p.1 p.2
    | none => []
  let fromVariable :=
    match alookup symbols.vars objectName with
    | some variableSym =>
        let fromDocClass :=
          match alookup symbols.grimoires variableSym.type with
          | some grimoire => grimoire.spells.map fun p => docSpellItem p.1 p.2
          | none => []
        let fromCatalogType :=
          match alookup carriongGrimoires variableSym.type with
          | some grimoire => grimoire.spells.map fun p => builtinSpellItem p.1 p.2
          | none => []
        let fromPrimitive :=
          match primitiveToGrimoire variableSym.type with
          | some grimoireName =>
              match alookup carriongGrimoires grimoireName with
              | some grimoire => grimoire.spells.map fun p => builtinSpellItem p.1 p.2
              | none => []
          | none => []
        fromDocClass ++ fromCatalogType ++ fromPrimitive
    | none => []
  fromCatalogName ++ fromVariable

/-- `getParameterCompletions`: not implemented in this release. -/
def getParameterCompletions : List CompletionItem := []

/-- The reserved-word list offered by general completion. -/
def carrionKeywords : List String :=
  ["spell", "grim", "init", "self", "if", "otherwise", "else", "for", "in",
   "while", "return", "attempt", "ensnare", "resolve", "raise", "import",
   "as", "match", "case", "stop", "skip", "ignore", "True", "False", "None",
   "and", "or", "not", "main", "global", "autoclose", "arcane",
   "arcanespell", "super", "check"]

/-- Snippet insert text for the structural keywords; other keywords
insert themselves. -/
def keywordInsertText (keyword : String) : String :=
  match keyword with
  | "spell" => "spell ${1:name}(${2:params}):\n\t${3:body}"
  | "grim" => "grim ${1:ClassName}:\n\tinit(${2:params}):\n\t\t${3:body}"
  | "if" => "if ${1:condition}:\n\t${2:body}"
  | "for" => "for ${1:var} in ${2:iterable}:\n\t${3:body}"
  | "while" => "while ${1:condition}:\n\t${2:body}"
  | "attempt" => "attempt:\n\t${1:try_body}\nensnare:\n\t${2:except_body}"
  | "autoclose" => "autoclose ${1:resource} as ${2:var}:\n\t${3:body}"
  | _ => keyword

/-- `isAlphaNumeric` from `features.go`. -/
def isAlphaNumericCh (c : Char) : Bool :=
  decide (('a' ≤ c ∧ c ≤ 'z') ∨ ('A' ≤ c ∧ c ≤ 'Z') ∨ ('0' ≤ c ∧ c ≤ '9'))

/-- `extractLastToken`: skip trailing blanks, then take the trailing
identifier-character run. -/
def extractLastToken (text : String) : String :=
  let rev := text.data.reverse
  let rev1 := rev.dropWhile fun c => c == ' ' || c == '\t'
  let tok := rev1.takeWhile fun c => isAlphaNumericCh c || c == '_'
  String.mk tok.reverse

/-- `getGeneralCompletions`: keywords (lower-cased prefix match), catalog
built-ins, catalog classes, then document classes, functions and
variables — all prefix-filtered on the match token and concatenated. -/
def getGeneralCompletions (builtins : AList BuiltinInfo)
    (carriongGrimoires : AList GrimoireInfo) (symbols : SymbolTable)
    (pfx : String) : List CompletionItem :=
  let matchToken := extractLastToken pfx
  let keywordItems := carrionKeywords.filterMap fun keyword =>
    if strHasPrefix keyword (strToLower matchToken) then
      let insertText := keywordInsertText keyword
      if containsSubstring insertText "$\x7b" then
        some { label := keyword, kind := .kKeyword, insertText := insertText,
               insertTextFormat := .snippet }
      else
        some { label := keyword, kind := .kKeyword, insertText := insertText }
    else none
  let builtinItems := builtins.filterMap fun p =>
    if strHasPrefix p.1 matchToken then
      some { label := p.1, kind := .kFunction,
             detail := p.2.name ++ "(" ++ formatParameters p.2.parameters
               ++ ") -> " ++ p.2.returnType,
             documentation := p.2.description,
             insertText := p.1 ++ "(${1})", insertTextFormat := .snippet }
    else none
  let catalogClassItems := carriongGrimoires.filterMap fun p =>
    if strHasPrefix p.1 matchToken then
      some { label := p.1, kind := .kClass, detail := "grim " ++ p.1,
             documentation := p.2.description }
    else none
  let docClassItems := symbols.grimoires.filterMap fun p =>
    if strHasPrefix p.1 matchToken then
      some { label := p.1, kind := .kClass, detail := "grim " ++ p.1,
             documentation := p.2.docString }
    else none
  let docSpellItems := symbols.spells.filterMap fun p =>
    if strHasPrefix p.1 matchToken then
      some { label := p.1, kind := .kFunction,
             detail := "spell " ++ p.2.name ++ "("
               ++ formatParameters p.2.parameters ++ ") -> " ++ p.2.returnType,
             documentation := p.2.docString,
             insertText := p.1 ++ "(${1})", insertTextFormat := .snippet }
    else none
  let docVarItems := symbols.vars.filterMap fun p =>
    if strHasPrefix p.1 matchToken then
      some { label := p.1, kind := .kVariable, detail := p.1 ++ ": " ++ p.2.type }
    else none
  keywordItems ++ builtinItems ++ catalogClassItems
    ++ docClassItems ++ docSpellItems ++ docVarItems

/-- The prefix `GetCompletions` slices out of the cursor's line: the
text up to the cursor when the character fits the line, else empty. -/
def completionPrefixOf (currentLine : String) (character : Nat) : String :=
  if character ≤ currentLine.length then strTake currentLine character else ""

/-- `GetCompletions`: empty when the line is out of range; otherwise
classify the prefix by its last character and dispatch. -/
def getCompletions (builtins : AList BuiltinInfo)
    (carriongGrimoires : AList GrimoireInfo) (content : String)
    (symbols : SymbolTable) (line character : Nat) : List CompletionItem :=
  let lines := splitOnChar '\n' content
  if line ≥ lines.length then []
  else
    let currentLine := lines.getD line ""
    let pfx := completionPrefixOf currentLine character
    if strHasSuffix pfx "." then getMethodCompletions carriongGrimoires symbols pfx
    else if strHasSuffix pfx "(" then getParameterCompletions
    else getGeneralCompletions builtins carriongGrimoires symbols pfx

/-! ## Semantic tokens (`features.go`) -/

/-- The lexer token kinds `mapTokenToSemanticType` dispatches on
(`OTHER` stands for every kind the switch defaults on). -/
inductive TokenType where
  | SPELL | GRIMOIRE | IF | ELSE | FOR | WHILE | RETURN | IMPORT | AS
  | STRING | DOCSTRING
  | INT | FLOAT
  | ASSIGN | PLUS | MINUS | ASTERISK | SLASH | EQ | NOT_EQ
  | IDENT
  | OTHER
deriving DecidableEq, Repr

/-- `mapTokenToSemanticType`: keyword 0, string 1, number 2, operator 3,
identifier 4, everything else -1 (skipped). -/
def mapTokenToSemanticType : TokenType → Int
  | .SPELL | .GRIMOIRE | .IF | .ELSE | .FOR | .WHILE | .RETURN | .IMPORT
  | .AS => 0
  | .STRING | .DOCSTRING => 1
  | .INT | .FLOAT => 2
  | .ASSIGN | .PLUS | .MINUS | .ASTERISK | .SLASH | .EQ | .NOT_EQ => 3
  | .IDENT => 4
  | .OTHER => -1

structure Token where
  type : TokenType
  literal : String
  line : Int
  column : Int
deriving DecidableEq, Repr

/-- `GetSemanticTokens` data loop: for every token whose semantic type is
non-negative, append `[tok.Line, tok.Column, len(tok.Literal), type, 0]`. -/
def getSemanticTokensData : List Token → List Int
  | [] => []
  | tok :: rest =>
      let tokenType := mapTokenToSemanticType tok.type
      (if tokenType ≥ 0 then
        [tok.line, tok.column, (tok.literal.length : Int), tokenType, 0]
      else []) ++ getSemanticTokensData rest

/-- Modelled from the spec (§4.5.5), for comparison with the code's
`getSemanticTokensData`: the first emitted token's `deltaLine` and
`deltaStart` are absolute, later ones are relative to the previous
emitted token (`deltaStart` restarts at column 0 on a new line). -/
def specDeltaEncodeAux : Int → Int → List (Int × Int × Int × Int) → List Int
  | _, _, [] => []
  | prevLine, prevCol, (l, c, n, t) :: rest =>
      let dl := l - prevLine
      let dc := if l = prevLine then c - prevCol else c
      dl :: dc :: n :: t :: 0 :: specDeltaEncodeAux l c rest

/-- Modelled from the spec: the delta-encoded semantic-tokens stream over
the same emitted-token selection as the code. -/
def specSemanticTokensData (toks : List Token) : List Int :=
  specDeltaEncodeAux 0 0 (toks.filterMap fun tok =>
    let tt := mapTokenToSemanticType tok.type
    if tt ≥ 0 then some (tok.line, tok.column, (tok.literal.length : Int), tt)
    else none)

/-! ## Formatter (`carrion_formatter.go` in the `analyzer` package)

The formatter's mutable `indentLevel` is threaded as an explicit `level`
argument; `formatProgram` starts at level 0 and block formatting runs
bodies one level deeper, mirroring the increment/decrement pairs. -/

structure FormattingOptions where
  tabSize : Nat := 4
  insertSpaces : Bool := true
  trimTrailingWhitespace : Bool := false
  insertFinalNewline : Bool := false
  trimFinalNewlines : Bool := false
deriving DecidableEq, Repr

/-- `indentString`: spaces (`level*tabSize`) or tabs (`level`). -/
def indentString (opts : FormattingOptions) (level : Nat) : String :=
  if opts.insertSpaces then String.mk (List.replicate (level * opts.tabSize) ' ')
  else String.mk (List.replicate level '\t')

/-- `formatParameters` of the formatter, on identifier-form parameters. -/
def formatParamList (params : List String) : String :=
  String.intercalate ", " params

mutual

/-- `formatExpression` over the embedded fragment. -/
def formatExpression : Expr → String
  | .ident name => name
  | .intLit v => toString v
  | .stringLit s => "\"" ++ s ++ "\""
  | .boolLit b => if b then "True" else "False"
  | .noneLit => "None"
  | .call fn args =>
      formatExpression fn ++ "(" ++ String.intercalate ", " (formatExprList args) ++ ")"
  | .binop l op r => formatExpression l ++ " " ++ op ++ " " ++ formatExpression r
  | .dot l field => formatExpression l ++ "." ++ field

def formatExprList : List Expr → List String
  | [] => []
  | e :: rest => formatExpression e :: formatExprList rest

end

mutual

/-- `formatStatement`. -/
def formatStatement (opts : FormattingOptions) (level : Nat) : Stmt → String
  | .spellDef fd => formatFunctionDefinition opts level fd
  | .grimDef name inherits doc initM methods =>
      formatGrimoireDefinition opts level name inherits doc initM methods
  | .assign target op value =>
      let operator := if op = "" then "=" else op
      indentString opts level ++ formatExpression target ++ " " ++ operator
        ++ " " ++ formatExpression value
  | .exprStmt e => indentString opts level ++ formatExpression e
  | .ifStmt cond conseq branches alt =>
      String.intercalate "\n"
        ([indentString opts level ++ "if " ++ formatExpression cond ++ ":"]
          ++ formatBlock opts (level + 1) conseq
          ++ formatBranches opts level branches
          ++ (match alt with
              | some a =>
                  [indentString opts level ++ "else:"] ++ formatBlock opts (level + 1) a
              | none => []))
  | .forStmt v iter body =>
      String.intercalate "\n"
        ([indentString opts level ++ "for " ++ formatExpression v ++ " in "
            ++ formatExpression iter ++ ":"]
          ++ formatBlock opts (level + 1) body)
  | .whileStmt cond body =>
      String.intercalate "\n"
        ([indentString opts level ++ "while " ++ formatExpression cond ++ ":"]
          ++ formatBlock opts (level + 1) body)
  | .returnStmt none => indentString opts level ++ "return"
  | .returnStmt (some v) =>
      indentString opts level ++ "return " ++ formatExpression v
  | .importStmt fp cn al =>
      indentString opts level ++ "import "
        ++ (match fp with | some f => "\"" ++ f ++ "\"" | none => "")
        ++ (match cn with | some c => "." ++ c | none => "")
        ++ (match al with | some a => " as " ++ a | none => "")
  | .mainStmt body =>
      String.intercalate "\n"
        ([indentString opts level ++ "main:"] ++ formatBlock opts (level + 1) body)
  | .globalStmt names =>
      indentString opts level ++ "global " ++ String.intercalate ", " names
termination_by s => sizeOf s

/-- The `otherwise` clauses of `formatIfStatement`. -/
def formatBranches (opts : FormattingOptions) (level : Nat) :
    List (Expr × List Stmt) → List String
  | [] => []
  | (cond, body) :: rest =>
      ([indentString opts level ++ "otherwise " ++ formatExpression cond ++ ":"]
        ++ formatBlock opts (level + 1) body)
        ++ formatBranches opts level rest
termination_by l => sizeOf l

/-- `formatBlockStatement`: format each statement, dropping empties. -/
def formatBlock (opts : FormattingOptions) (level : Nat) : List Stmt → List String
  | [] => []
  | stmt :: rest =>
      let formatted := formatStatement opts level stmt
      (if formatted = "" then [] else [formatted]) ++ formatBlock opts level rest
termination_by l => sizeOf l

/-- `formatFunctionDefinition`: optional docstring line, `spell` header,
body one level deeper. -/
def formatFunctionDefinition (opts : FormattingOptions) (level : Nat) :
    FuncDef → String
  | .mk name params doc body =>
      String.intercalate "\n"
        ((match doc with
          | some d => [indentString opts level ++ "\"\"\"" ++ d ++ "\"\"\""]
          | none => [])
          ++ [indentString opts level ++ "spell " ++ name ++ "("
                ++ formatParamList params ++ "):"]
          ++ formatBlock opts (level + 1) body)
termination_by fd => sizeOf fd

/-- `formatInitMethod`: like a function but headed `init(…):`. -/
def formatInitMethod (opts : FormattingOptions) (level : Nat) :
    FuncDef → String
  | .mk _ params doc body =>
      String.intercalate "\n"
        ((match doc with
          | some d => [indentString opts level ++ "\"\"\"" ++ d ++ "\"\"\""]
          | none => [])
          ++ [indentString opts level ++ "init(" ++ formatParamList params ++ "):"]
          ++ formatBlock opts (level + 1) body)
termination_by fd => sizeOf fd

/-- `formatGrimoireDefinition`. -/
def formatGrimoireDefinition (opts : FormattingOptions) (level : Nat)
    (name : String) (inherits doc : Option String)
    (initM : Option FuncDef) (methods : List FuncDef) : String :=
  String.intercalate "\n"
    ((match doc with
      | some d => [indentString opts level ++ "\"\"\"" ++ d ++ "\"\"\""]
      | none => [])
      ++ [indentString opts level
            ++ (match inherits with
                | some p => "grim " ++ name ++ "(" ++ p ++ "):"
                | none => "grim " ++ name ++ ":")]
      ++ (match initM with
          | some ifd => [formatInitMethod opts (level + 1) ifd]
          | none => [])
      ++ formatMethods opts (level + 1) methods)
termination_by sizeOf initM + sizeOf methods
decreasing_by
  all_goals first
  | decreasing_tactic
  | (simp_wf; cases initM <;> simp_arith)

/-- The grimoire body's method list. -/
def formatMethods (opts : FormattingOptions) (level : Nat) :
    List FuncDef → List String
  | [] => []
  | m :: rest => formatFunctionDefinition opts level m :: formatMethods opts level rest
termination_by l => sizeOf l

end

def isMainStatement : Stmt → Bool
  | .mainStmt _ => true
  | _ => false

/-- The blank-line separator `formatProgram` appends after statement `i`
when a statement `i+1` exists: two blank lines between a class and a
following `main` block, one blank line after a function definition. -/
def blankSepAfter : Stmt → Stmt → List String
  | .grimDef _ _ _ _ _, next => if isMainStatement next then ["", ""] else []
  | .spellDef _, _ => [""]
  | _, _ => []

/-- `formatProgram`'s statement loop. -/
def formatLoop (opts : FormattingOptions) : List Stmt → List String
  | [] => []
  | [stmt] =>
      let formatted := formatStatement opts 0 stmt
      if formatted = "" then [] else [formatted]
  | stmt :: next :: rest =>
      let formatted := formatStatement opts 0 stmt
      (if formatted = "" then [] else [formatted])
        ++ blankSepAfter stmt next
        ++ formatLoop opts (next :: rest)

/-- `formatProgram`: join the parts with newlines. -/
def formatProgram (opts : FormattingOptions) (stmts : List Stmt) : String :=
  String.intercalate "\n" (formatLoop opts stmts)

/-- `strings.TrimRight` with a cutset. -/
def trimRightCutset (s : String) (cut : List Char) : String :=
  String.mk ((s.data.reverse.dropWhile fun c => cut.contains c).reverse)

/-- `applyFinalFormatting`: optional per-line trailing-whitespace trim,
then normalize the tail to exactly one newline. -/
def applyFinalFormatting (opts : FormattingOptions) (content : String) : String :=
  let lines := splitOnChar '\n' content
  let formattedLines := lines.map fun line =>
    if opts.trimTrailingWhitespace then trimRightCutset line [' ', '\t'] else line
  let result := String.intercalate "\n" formattedLines
  let result := trimRightCutset result ['\n'] ++ "\n"
  let result :=
    if opts.insertFinalNewline && !(strHasSuffix result "\n") then result ++ "\n"
    else result
  if opts.trimFinalNewlines then trimRightCutset result ['\n'] ++ "\n" else result

/-! ## Bifrost package integration (`bifrost_integration.go`)

The filesystem is abstracted as the set of existing package directories
and a path → contents map of readable files; parsing-and-evaluating a
loaded source in the interpreter environment is abstracted as the
`parseOk` oracle (the upstream parser/evaluator is an external module). -/

structure PackageFS where
  dirs : List String
  files : AList String
  cwd : String := ""
deriving DecidableEq, Repr

structure Bifrost where
  packagePaths : List String
  loadedPackages : AList Bool
deriving DecidableEq, Repr

/-- `filepath.Join` on the clean slash-separated paths used here. -/
def joinPath (a b : String) : String := a ++ "/" ++ b

/-- `findPackage`: first search path holding a directory of that name. -/
def findPackage (fs : PackageFS) (bi : Bifrost) (packageName : String) : String :=
  match bi.packagePaths.find? (fun sp => fs.dirs.contains (joinPath sp packageName)) with
  | some sp => joinPath sp packageName
  | none => ""

def fileExists (fs : PackageFS) (p : String) : Bool :=
  (alookup fs.files p).isSome

/-- `loadCarrionFile`: read, parse and evaluate one source file (the
loaded-package set is not updated on this path, as in the source). -/
def loadCarrionFile (fs : PackageFS) (parseOk : String → Bool)
    (bi : Bifrost) (filePath : String) : Except String Bifrost :=
  match alookup fs.files filePath with
  | none => .error ("failed to read file: " ++ filePath)
  | some content =>
      if parseOk content then .ok bi
      else .error ("parse errors in file " ++ filePath)

/-- `LoadPackage`: skip if already loaded; locate the package directory
in the search paths (error when absent); probe `src/main.crl`,
`main.crl`, `<name>.crl`; read, parse, evaluate, mark loaded. -/
def loadPackage (fs : PackageFS) (parseOk : String → Bool)
    (bi : Bifrost) (packageName : String) : Except String Bifrost :=
  if (alookup bi.loadedPackages packageName).getD false then .ok bi
  else
    let packagePath := findPackage fs bi packageName
    if packagePath = "" then .error ("package not found: " ++ packageName)
    else
      let primary := joinPath packagePath "src/main.crl"
      let mainFile? :=
        if fileExists fs primary then some primary
        else
          [joinPath packagePath "main.crl",
           joinPath packagePath (packageName ++ ".crl")].find? (fileExists fs)
      match mainFile? with
      | none => .error ("no main file found for package: " ++ packageName)
      | some mainFile =>
          match alookup fs.files mainFile with
          | none => .error "failed to read package file"
          | some content =>
              if parseOk content then
                .ok { bi with
                  loadedPackages := ainsert bi.loadedPackages packageName true }
              else .error ("parse errors in package " ++ packageName)

/-- `loadRelativePackage`: resolve against the working directory; a
`.crl` path is loaded directly, a directory is loaded via its
`main.crl`. -/
def loadRelativePackage (fs : PackageFS) (parseOk : String → Bool)
    (bi : Bifrost) (relativePath : String) : Except String Bifrost :=
  let absolutePath := joinPath fs.cwd relativePath
  if strHasSuffix absolutePath ".crl" then loadCarrionFile fs parseOk bi absolutePath
  else if fs.dirs.contains absolutePath then
    let mainFile := joinPath absolutePath "main.crl"
    if fileExists fs mainFile then loadCarrionFile fs parseOk bi mainFile
    else .error ("relative package not found: " ++ relativePath)
  else .error ("relative package not found: " ++ relativePath)

/-- `LoadPackageFromImport`: relative paths go through the relative
loader; otherwise the first path segment names the package. -/
def loadPackageFromImport (fs : PackageFS) (parseOk : String → Bool)
    (bi : Bifrost) (importPath : String) : Except String Bifrost :=
  if strHasPrefix importPath "./" || strHasPrefix importPath "../" then
    loadRelativePackage fs parseOk bi importPath
  else
    let parts := splitOnChar '/' importPath
    let packageName := parts.headD ""
    loadPackage fs parseOk bi packageName

/-! ## Supporting definitions for the verification layer -/

/-- Version recorded for a URI, 0 when the store has no record. -/
def versionOf (documents : AList Document) (uri : String) : Nat :=
  match alookup documents uri with
  | some d => d.version
  | none => 0

/-- Concrete document class used by witness instantiations. -/
def personMethodGreet : SpellSymbol :=
  { name := "greet", range := astNodeToRange, parameters := [],
    grimoire := "Person" }

/-- Concrete document class `Person` with one method `greet`. -/
def personGrimoire : GrimoireSymbol :=
  { name := "Person", range := astNodeToRange,
    spells := [("greet", personMethodGreet)] }

/-- Concrete symbol table holding only the class `Person`. -/
def personDocSymbols : SymbolTable := ⟨[("Person", personGrimoire)], [], [], []⟩

/-- Concrete symbol table holding `Person` and a variable `p : Person`. -/
def personVarSymbols : SymbolTable :=
  ⟨[("Person", personGrimoire)], [],
   [("p", { name := "p", range := astNodeToRange, type := "Person" })], []⟩

/-! ## Association-list lemmas -/

theorem alookup_ainsert_self {α : Type} (l : AList α) (k : String) (v : α) :
    alookup (ainsert l k v) k = some v := by
  induction l with
  | nil => simp [ainsert, alookup]
  | cons p rest ih =>
      obtain ⟨k', w⟩ := p
      by_cases h : k' = k
      · subst h; simp [ainsert, alookup]
      · simp [ainsert, alookup, h, ih]

theorem alookup_ainsert_ne {α : Type} (l : AList α) (k : String) (v : α)
    (k' : String) (h : k ≠ k') :
    alookup (ainsert l k v) k' = alookup l k' := by
  induction l with
  | nil => simp [ainsert, alookup, h]
  | cons p rest ih =>
      obtain ⟨k2, w⟩ := p
      by_cases h2 : k2 = k
      · subst h2; simp [ainsert, alookup, h]
      · simp [ainsert, alookup, h2, ih]

/-! ## Symbol-extraction lemmas -/

theorem analyzeVariable_spells (cat : AList GrimoireInfo) (t v : Expr)
    (s : SymbolTable) : (analyzeVariable cat t v s).spells = s.spells := by
  cases t <;> simp [analyzeVariable]

theorem analyzeVariable_grimoires (cat : AList GrimoireInfo) (t v : Expr)
    (s : SymbolTable) : (analyzeVariable cat t v s).grimoires = s.grimoires := by
  cases t <;> simp [analyzeVariable]

theorem analyzeVariable_ident (cat : AList GrimoireInfo) (v : String)
    (value : Expr) (s : SymbolTable) :
    (analyzeVariable cat (.ident v) value s).vars
      = ainsert s.vars v
          ⟨v, astNodeToRange, inferTypeWithContext cat value s, "", false⟩ := rfl

theorem analyzeBlockStmts_spells (cat : AList GrimoireInfo) (stmts : List Stmt)
    (s : SymbolTable) : (analyzeBlockStmts cat stmts s).spells = s.spells := by
  induction stmts, s using analyzeBlockStmts.induct cat with
  | _ => simp_all [analyzeBlockStmts, analyzeVariable_spells]

theorem analyzeBlockStmts_grimoires (cat : AList GrimoireInfo) (stmts : List Stmt)
    (s : SymbolTable) : (analyzeBlockStmts cat stmts s).grimoires = s.grimoires := by
  induction stmts, s using analyzeBlockStmts.induct cat with
  | _ => simp_all [analyzeBlockStmts, analyzeVariable_grimoires]

/-- Folding the method loop never touches spell entries whose key is not
among the methods' names. -/
theorem grimFold_preserves_spells (cat : AList GrimoireInfo) (gname : String)
    (methods : List FuncDef) (acc : AList SpellSymbol × SymbolTable) (k : String)
    (hk : k ∉ methods.map FuncDef.name) :
    alookup (methods.foldl (grimMethodStep cat gname) acc).2.spells k
      = alookup acc.2.spells k := by
  induction methods generalizing acc with
  | nil => rfl
  | cons m rest ih =>
      simp only [List.map_cons, List.mem_cons, not_or] at hk
      obtain ⟨hk1, hk2⟩ := hk
      simp only [List.foldl_cons]
      rw [ih _ hk2]
      show alookup (grimMethodStep cat gname acc m).2.spells k = _
      simp only [grimMethodStep, analyzeBlockStmts_spells]
      exact alookup_ainsert_ne _ _ _ _ (Ne.symm hk1)

/-- With pairwise-distinct method names, each method ends up in the flat
spell table under its bare name, owner class set. -/
theorem grimFold_mem_spells (cat : AList GrimoireInfo) (gname : String)
    (methods : List FuncDef) (acc : AList SpellSymbol × SymbolTable)
    (fd : FuncDef) (hfd : fd ∈ methods)
    (hnd : (methods.map FuncDef.name).Nodup) :
    alookup (methods.foldl (grimMethodStep cat gname) acc).2.spells fd.name
      = some (mkMethodSymbol gname fd) := by
  induction methods generalizing acc with
  | nil => cases hfd
  | cons m rest ih =>
      simp only [List.map_cons, List.nodup_cons] at hnd
      obtain ⟨hm, hnd'⟩ := hnd
      rcases List.mem_cons.mp hfd with h | h
      · subst h
        simp only [List.foldl_cons]
        rw [grimFold_preserves_spells _ _ _ _ _ hm]
        show alookup (grimMethodStep cat gname acc fd).2.spells fd.name = _
        simp only [grimMethodStep, analyzeBlockStmts_spells]
        exact alookup_ainsert_self _ _ _
      · simp only [List.foldl_cons]
        exact ih _ h hnd'

/-! ## Member-completion characterizations -/

/-- Member completion when the object resolves through a variable whose
type names a document class only. -/
theorem getMethodCompletions_docClass (cat : AList GrimoireInfo)
    (symbols : SymbolTable) (pfx v : String) (varSym : VariableSymbol)
    (g : GrimoireSymbol)
    (hobj : extractObjectName pfx = v)
    (hvcat : alookup cat v = none)
    (hvar : alookup symbols.vars v = some varSym)
    (hg : alookup symbols.grimoires varSym.type = some g)
    (hcatT : alookup cat varSym.type = none)
    (hprim : primitiveToGrimoire varSym.type = none) :
    getMethodCompletions cat symbols pfx
      = g.spells.map fun p => docSpellItem p.1 p.2 := by
  simp only [getMethodCompletions, hobj, hvcat, hvar, hg, hcatT, hprim,
    List.nil_append, List.append_nil]

/-- Member completion when the object resolves through a variable whose
type names a catalog class only. -/
theorem getMethodCompletions_catalogClass (cat : AList GrimoireInfo)
    (symbols : SymbolTable) (pfx v : String) (varSym : VariableSymbol)
    (gi : GrimoireInfo)
    (hobj : extractObjectName pfx = v)
    (hvcat : alookup cat v = none)
    (hvar : alookup symbols.vars v = some varSym)
    (hg : alookup symbols.grimoires varSym.type = none)
    (hcatT : alookup cat varSym.type = some gi)
    (hprim : primitiveToGrimoire varSym.type = none) :
    getMethodCompletions cat symbols pfx
      = gi.spells.map fun p => builtinSpellItem p.1 p.2 := by
  simp only [getMethodCompletions, hobj, hvcat, hvar, hg, hcatT, hprim,
    List.nil_append, List.append_nil]

/-! ## String and formatter lemmas -/

theorem intercalate_go_length (s : String) (as : List String) (acc : String) :
    acc.length ≤ (String.intercalate.go acc s as).length := by
  induction as generalizing acc with
  | nil => simp [String.intercalate.go]
  | cons a rest ih =>
      have step : acc.length ≤ (acc ++ s ++ a).length := by
        simp [String.length_append]; omega
      calc acc.length ≤ (acc ++ s ++ a).length := step
        _ ≤ _ := by simpa [String.intercalate.go] using ih (acc ++ s ++ a)

theorem intercalate_cons_ne_empty (s a : String) (l : List String)
    (h : a ≠ "") : String.intercalate s (a :: l) ≠ "" := by
  have h1 : 0 < a.length := by
    cases a with
    | mk d =>
        cases d with
        | nil => exact absurd rfl h
        | cons c cs => simp [String.length]
  have h2 := intercalate_go_length s l a
  intro hc
  rw [show String.intercalate s (a :: l) = String.intercalate.go a s l from rfl] at hc
  rw [hc] at h2
  have h0 : ("" : String).length = 0 := rfl
  omega

theorem formatFunctionDefinition_ne_empty (opts : FormattingOptions)
    (level : Nat) (fd : FuncDef) :
    formatFunctionDefinition opts level fd ≠ "" := by
  obtain ⟨name, params, doc, body⟩ := fd
  cases doc with
  | none =>
      simp only [formatFunctionDefinition, List.nil_append, List.cons_append]
      apply intercalate_cons_ne_empty
      intro hc
      have hlen := congrArg String.length hc
      simp only [String.length_append] at hlen
      have l1 : ("spell " : String).length = 6 := rfl
      have l0 : ("" : String).length = 0 := rfl
      rw [l1, l0] at hlen
      omega
  | some d =>
      simp only [formatFunctionDefinition, List.nil_append, List.cons_append,
        List.singleton_append]
      apply intercalate_cons_ne_empty
      intro hc
      have hlen := congrArg String.length hc
      simp only [String.length_append] at hlen
      have l1 : ("\"\"\"" : String).length = 3 := rfl
      have l0 : ("" : String).length = 0 := rfl
      rw [l1, l0] at hlen
      omega

/-! ## Document-store lemmas -/

theorem getNextVersion_eq (documents : AList Document) (uri : String) :
    getNextVersion documents uri = versionOf documents uri + 1 := by
  unfold getNextVersion versionOf
  cases alookup documents uri <;> rfl

theorem versionOf_update_self (cat : AList GrimoireInfo)
    (docs : AList Document) (uri content : String) (program : List Stmt) :
    versionOf (updateDocument cat docs uri content program) uri
      = versionOf docs uri + 1 := by
  unfold updateDocument
  show versionOf (ainsert docs uri _) uri = _
  unfold versionOf
  rw [alookup_ainsert_self]
  exact getNextVersion_eq docs uri

theorem versionOf_update_other (cat : AList GrimoireInfo)
    (docs : AList Document) (u content : String) (program : List Stmt)
    (uri : String) (h : u ≠ uri) :
    versionOf (updateDocument cat docs u content program) uri
      = versionOf docs uri := by
  unfold updateDocument
  show versionOf (ainsert docs u _) uri = _
  unfold versionOf
  rw [alookup_ainsert_ne _ _ _ _ h]

theorem versionOf_applyUpdates_le (cat : AList GrimoireInfo)
    (docs : AList Document) (us : List (String × String × List Stmt))
    (uri : String) :
    versionOf docs uri ≤ versionOf (applyUpdates cat docs us) uri := by
  induction us generalizing docs with
  | nil => simp [applyUpdates]
  | cons u rest ih =>
      obtain ⟨u1, c1, p1⟩ := u
      simp only [applyUpdates]
      refine le_trans ?_ (ih _)
      by_cases h : u1 = uri
      · subst h
        rw [versionOf_update_self]
        omega
      · rw [versionOf_update_other _ _ _ _ _ _ h]

theorem applyUpdates_append (cat : AList GrimoireInfo)
    (docs : AList Document) (us1 us2 : List (String × String × List Stmt)) :
    applyUpdates cat docs (us1 ++ us2)
      = applyUpdates cat (applyUpdates cat docs us1) us2 := by
  induction us1 generalizing docs with
  | nil => simp [applyUpdates]
  | cons u rest ih =>
      obtain ⟨u1, c1, p1⟩ := u
      simp only [List.cons_append, applyUpdates]
      exact ih _

/-! ## Claim theorems -/

/-- C3: the claim says the semantic-tokens reply is delta-encoded (first
token absolute, later tokens relative to the previous emitted token).
The code's loop — despite its own comment naming the fields `deltaLine`
and `deltaStart` — emits the absolute `tok.Line`/`tok.Column` for every
token: for two identifiers on line 3 at columns 5 and 9, the second
group is `3,9,…` where the delta encoding requires `0,4,…`. -/
theorem semanticTokens_absolute_not_delta :
    getSemanticTokensData [⟨.IDENT, "x", 3, 5⟩, ⟨.IDENT, "y", 3, 9⟩]
      = [3, 5, 1, 4, 0, 3, 9, 1, 4, 0] ∧
    specSemanticTokensData [⟨.IDENT, "x", 3, 5⟩, ⟨.IDENT, "y", 3, 9⟩]
      = [3, 5, 1, 4, 0, 0, 4, 1, 4, 0] ∧
    getSemanticTokensData [⟨.IDENT, "x", 3, 5⟩, ⟨.IDENT, "y", 3, 9⟩]
      ≠ specSemanticTokensData [⟨.IDENT, "x", 3, 5⟩, ⟨.IDENT, "y", 3, 9⟩] := by
  decide

/-- C5: loading the built-in module name `os` when no package directory
named `os` exists under any search path does probe the search paths and
returns the error `package not found: os` (both directly and through
an import path), instead of the no-op success the built-in module set
documented in the changelog requires. -/
theorem builtinModule_load_probes_and_errors :
    loadPackage ⟨[], [], ""⟩ (fun _ => true)
      ⟨["carrion_modules", "/home/user/.carrion/packages",
        "/usr/local/share/carrion/lib"], []⟩ "os"
      = .error "package not found: os" ∧
    loadPackageFromImport ⟨[], [], ""⟩ (fun _ => true)
      ⟨["carrion_modules", "/home/user/.carrion/packages",
        "/usr/local/share/carrion/lib"], []⟩ "os"
      = .error "package not found: os" := ⟨rfl, rfl⟩ 

/-- C6 counterexample: with the cursor character 5 past the end of the
line `ab`, the prefix the completion handler uses is the empty string,
not the entire line as the claim states. -/
theorem completion_pastEOL_counterexample :
    completionPrefixOf "ab" 5 = "" ∧ completionPrefixOf "ab" 5 ≠ "ab" := by
  decide

/-- C6 amended: for every completion request whose cursor character
position is strictly greater than the length of the cursor's line, the
prefix used for context classification and matching is the empty string
(so the request falls through to general completion with an empty match
token), not the entire line. -/
theorem completion_pastEOL_prefix_empty (builtins : AList BuiltinInfo)
    (carriongGrimoires : AList GrimoireInfo) (content : String)
    (symbols : SymbolTable) (line character : Nat)
    (hline : line < (splitOnChar '\n' content).length)
    (hchar : ((splitOnChar '\n' content).getD line "").length < character) :
    completionPrefixOf ((splitOnChar '\n' content).getD line "") character = "" ∧
    getCompletions builtins carriongGrimoires content symbols line character
      = getGeneralCompletions builtins carriongGrimoires symbols "" := by
  have h1 : completionPrefixOf ((splitOnChar '\n' content).getD line "") character = "" := by
    unfold completionPrefixOf
    rw [if_neg (by omega)]
  refine ⟨h1, ?_⟩
  have hl : ¬ line ≥ (splitOnChar '\n' content).length := by omega
  have e1 : strHasSuffix "" "." = false := by decide
  have e2 : strHasSuffix "" "(" = false := by decide
  simp only [getCompletions, if_neg hl, h1, e1, e2]
  simp

/-- C6 amended, witness at `content = "ab"`, cursor `(0, 5)`. -/
theorem completion_pastEOL_prefix_empty_witness :
    0 < (splitOnChar '\n' "ab").length ∧
    ((splitOnChar '\n' "ab").getD 0 "").length < 5 ∧
    getCompletions [] [] "ab" emptySymbolTable 0 5
      = getGeneralCompletions [] [] emptySymbolTable "" :=
  ⟨by decide, by decide,
    (completion_pastEOL_prefix_empty [] [] "ab" emptySymbolTable 0 5
      (by decide) (by decide)).2⟩

/-- C7 counterexample: between two consecutive top-level function
definitions the formatter does insert a blank-line separator — the
claim says none is inserted there. -/
theorem blankLine_between_functions_counterexample :
    formatLoop {} [Stmt.spellDef (.mk "a" [] none [.returnStmt none]),
        Stmt.spellDef (.mk "b" [] none [.returnStmt none])]
      = ["spell a():\n    return", "", "spell b():\n    return"] ∧
    formatProgram {} [Stmt.spellDef (.mk "a" [] none [.returnStmt none]),
        Stmt.spellDef (.mk "b" [] none [.returnStmt none])]
      = "spell a():\n    return\n\nspell b():\n    return" := by
  constructor
  · simp only [formatLoop, formatStatement, formatFunctionDefinition,
      formatBlock, indentString, formatParamList, blankSepAfter]
    decide
  · simp only [formatProgram, formatLoop, formatStatement,
      formatFunctionDefinition, formatBlock, indentString, formatParamList,
      blankSepAfter]
    decide

/-- C7 amended: a blank-line separator is inserted after a top-level
function definition if and only if a following top-level statement
exists — regardless of that statement's kind (in particular, also
between two consecutive top-level functions). -/
theorem blankLine_after_function_iff_next_exists (opts : FormattingOptions)
    (fd : FuncDef) (next : Stmt) (rest : List Stmt) :
    formatLoop opts (Stmt.spellDef fd :: next :: rest)
      = formatStatement opts 0 (Stmt.spellDef fd)
          :: "" :: formatLoop opts (next :: rest) ∧
    formatLoop opts [Stmt.spellDef fd]
      = [formatStatement opts 0 (Stmt.spellDef fd)] := by
  have hne : formatStatement opts 0 (Stmt.spellDef fd) ≠ "" := by
    simp only [formatStatement]
    exact formatFunctionDefinition_ne_empty opts 0 fd
  constructor
  · simp only [formatLoop, blankSepAfter]
    rw [if_neg hne]
    simp
  · simp only [formatLoop]
    rw [if_neg hne]

/-- C8 counterexample: an assignment right-hand side that is an
identifier with no previously declared variable infers to the
identifier's own text (here `y`), not to `unknown` as the claim
states. -/
theorem ident_inference_counterexample :
    inferTypeWithContext [] (.ident "y") emptySymbolTable = "y" ∧
    inferTypeWithContext [] (.ident "y") emptySymbolTable ≠ "unknown" := by
  decide

/-- C8 amended: for an identifier right-hand side, type inference
returns the previously declared variable's recorded type when such a
variable exists, and the identifier's own text otherwise (the
`"unknown"` fallback applies only to the default expression kinds). -/
theorem ident_inference_fallback (cat : AList GrimoireInfo) (name : String)
    (symbols : SymbolTable) :
    (∀ v, alookup symbols.vars name = some v →
        inferTypeWithContext cat (.ident name) symbols = v.type) ∧
    (alookup symbols.vars name = none →
        inferTypeWithContext cat (.ident name) symbols = name) := by
  constructor
  · intro v hv
    simp [inferTypeWithContext, hv]
  · intro hv
    simp [inferTypeWithContext, hv]

/-- C8 amended, witness: a declared variable `x : int` resolves to its
recorded type. -/
theorem ident_inference_fallback_witness :
    inferTypeWithContext [] (.ident "x")
      ⟨[], [], [("x", ⟨"x", astNodeToRange, "int", "", false⟩)], []⟩ = "int" :=
  (ident_inference_fallback [] "x"
      ⟨[], [], [("x", ⟨"x", astNodeToRange, "int", "", false⟩)], []⟩).1
    ⟨"x", astNodeToRange, "int", "", false⟩ rfl

/-- Unfolding equation: the spell table after `analyzeGrimoire` is the
spell table after the constructor insertion and the method loop (the
final class-symbol insertion touches only the class table). -/
theorem analyzeGrimoire_spells (cat : AList GrimoireInfo) (gname : String)
    (inherits doc : Option String) (initM : Option FuncDef)
    (methods : List FuncDef) (symbols : SymbolTable) :
    (analyzeGrimoire cat gname inherits doc initM methods symbols).spells
      = (methods.foldl (grimMethodStep cat gname)
          ([], (grimInitState cat gname initM symbols).2)).2.spells := rfl

/-- C1: a variable assigned a constructor call `C(...)` of a class known
in the document's symbol table (or, second conjunct, in the catalog's
class table) gets recorded with type exactly `C`, and member completion
on that variable yields items whose labels are exactly the keys of `C`'s
method map, each of kind method.  Side conditions: the variable is not
itself a catalog class name, `C` names a class in exactly one of the two
tables and is not one of the primitive type names, and the token before
the dot of the completion prefix is the variable. -/
theorem constructor_call_member_completion (cat : AList GrimoireInfo)
    (symbols : SymbolTable) (C v : String) (args : List Expr) (pfx : String)
    (hvcat : alookup cat v = none)
    (hprim : primitiveToGrimoire C = none)
    (hobj : extractObjectName pfx = v) :
    (∀ g : GrimoireSymbol, alookup symbols.grimoires C = some g →
      alookup cat C = none →
      inferTypeWithContext cat (Expr.call (.ident C) args) symbols = C ∧
      alookup (analyzeVariable cat (.ident v) (Expr.call (.ident C) args) symbols).vars v
        = some ⟨v, astNodeToRange, C, "", false⟩ ∧
      (getMethodCompletions cat
          (analyzeVariable cat (.ident v) (Expr.call (.ident C) args) symbols) pfx).map
          (fun item => item.label)
        = g.spells.map (fun p => p.1) ∧
      ∀ item ∈ getMethodCompletions cat
          (analyzeVariable cat (.ident v) (Expr.call (.ident C) args) symbols) pfx,
        item.kind = CompletionItemKind.kMethod) ∧
    (∀ gi : GrimoireInfo, alookup symbols.grimoires C = none →
      alookup cat C = some gi →
      inferTypeWithContext cat (Expr.call (.ident C) args) symbols = C ∧
      alookup (analyzeVariable cat (.ident v) (Expr.call (.ident C) args) symbols).vars v
        = some ⟨v, astNodeToRange, C, "", false⟩ ∧
      (getMethodCompletions cat
          (analyzeVariable cat (.ident v) (Expr.call (.ident C) args) symbols) pfx).map
          (fun item => item.label)
        = gi.spells.map (fun p => p.1) ∧
      ∀ item ∈ getMethodCompletions cat
          (analyzeVariable cat (.ident v) (Expr.call (.ident C) args) symbols) pfx,
        item.kind = CompletionItemKind.kMethod) := by
  constructor
  · intro g hg hcatC
    have hinf : inferTypeWithContext cat (Expr.call (.ident C) args) symbols = C := by
      simp [inferTypeWithContext, hg]
    have hvars : alookup (analyzeVariable cat (.ident v)
        (Expr.call (.ident C) args) symbols).vars v
        = some ⟨v, astNodeToRange, C, "", false⟩ := by
      rw [analyzeVariable_ident, hinf]
      exact alookup_ainsert_self _ _ _
    have hcomp : getMethodCompletions cat
        (analyzeVariable cat (.ident v) (Expr.call (.ident C) args) symbols) pfx
        = g.spells.map fun p => docSpellItem p.1 p.2 := by
      refine getMethodCompletions_docClass cat _ pfx v
        ⟨v, astNodeToRange, C, "", false⟩ g hobj hvcat hvars ?_ hcatC hprim
      rw [analyzeVariable_grimoires]
      exact hg
    refine ⟨hinf, hvars, ?_, ?_⟩
    · rw [hcomp, List.map_map]
      rfl
    · intro item hitem
      rw [hcomp] at hitem
      obtain ⟨p, hp, rfl⟩ := List.mem_map.mp hitem
      rfl
  · intro gi hgnone hcatC
    have hinf : inferTypeWithContext cat (Expr.call (.ident C) args) symbols = C := by
      simp [inferTypeWithContext, hgnone, hcatC]
    have hvars : alookup (analyzeVariable cat (.ident v)
        (Expr.call (.ident C) args) symbols).vars v
        = some ⟨v, astNodeToRange, C, "", false⟩ := by
      rw [analyzeVariable_ident, hinf]
      exact alookup_ainsert_self _ _ _
    have hcomp : getMethodCompletions cat
        (analyzeVariable cat (.ident v) (Expr.call (.ident C) args) symbols) pfx
        = gi.spells.map fun p => builtinSpellItem p.1 p.2 := by
      refine getMethodCompletions_catalogClass cat _ pfx v
        ⟨v, astNodeToRange, C, "", false⟩ gi hobj hvcat hvars ?_ hcatC hprim
      rw [analyzeVariable_grimoires]
      exact hgnone
    refine ⟨hinf, hvars, ?_, ?_⟩
    · rw [hcomp, List.map_map]
      rfl
    · intro item hitem
      rw [hcomp] at hitem
      obtain ⟨p, hp, rfl⟩ := List.mem_map.mp hitem
      rfl

/-- C1, witness: `p = Person("Alice")` in a document defining class
`Person` with one method `greet`; member completion on `p.` yields
exactly the label `greet`, of kind method. -/
theorem constructor_call_member_completion_witness :
    inferTypeWithContext []
      (Expr.call (.ident "Person") [Expr.stringLit "Alice"]) personDocSymbols
      = "Person" ∧
    (getMethodCompletions []
        (analyzeVariable [] (.ident "p")
          (Expr.call (.ident "Person") [Expr.stringLit "Alice"]) personDocSymbols)
        "    p.").map (fun item => item.label) = ["greet"] ∧
    ∀ item ∈ getMethodCompletions []
        (analyzeVariable [] (.ident "p")
          (Expr.call (.ident "Person") [Expr.stringLit "Alice"]) personDocSymbols)
        "    p.", item.kind = CompletionItemKind.kMethod := by
  have h := (constructor_call_member_completion [] personDocSymbols "Person" "p"
      [Expr.stringLit "Alice"] "    p." rfl rfl (by decide)).1
    personGrimoire (by decide) rfl
  exact ⟨h.1, by rw [h.2.2.1]; decide, h.2.2.2⟩

/-- C2 counterexample: with the catalog holding the built-in `print` and
the document defining a top-level function also named `print`, general
completion for the prefix `pri` replies with the label `print` twice —
labels are not pairwise distinct and no deduplication happens. -/
theorem completion_labels_duplicate_counterexample :
    (getGeneralCompletions [("print", ({ name := "print" } : BuiltinInfo))] []
        ⟨[], [("print", ⟨"print", astNodeToRange, [], "", false, false, false,
          false, "", ""⟩)], [], []⟩ "pri").map (fun item => item.label)
      = ["print", "print"] ∧
    ¬ ((getGeneralCompletions [("print", ({ name := "print" } : BuiltinInfo))] []
        ⟨[], [("print", ⟨"print", astNodeToRange, [], "", false, false, false,
          false, "", ""⟩)], [], []⟩ "pri").map (fun item => item.label)).Nodup := by
  decide

/-- C2 amended: completion replies concatenate the per-source yields
with no deduplication step, so a label repeats when several sources
yield the same name; when exactly one source yields — here member
completion through a variable whose type matches only a document class
with pairwise-distinct method names — the reply's labels are pairwise
distinct. -/
theorem memberCompletion_single_source_labels_nodup
    (cat : AList GrimoireInfo) (symbols : SymbolTable) (pfx v : String)
    (varSym : VariableSymbol) (g : GrimoireSymbol)
    (hobj : extractObjectName pfx = v)
    (hvcat : alookup cat v = none)
    (hvar : alookup symbols.vars v = some varSym)
    (hg : alookup symbols.grimoires varSym.type = some g)
    (hcatT : alookup cat varSym.type = none)
    (hprim : primitiveToGrimoire varSym.type = none)
    (hnd : (g.spells.map (fun p => p.1)).Nodup) :
    ((getMethodCompletions cat symbols pfx).map (fun item => item.label)).Nodup := by
  rw [getMethodCompletions_docClass cat symbols pfx v varSym g hobj hvcat hvar
    hg hcatT hprim, List.map_map]
  exact hnd

/-- C2 amended, witness: member completion on `p.` for `p : Person`. -/
theorem memberCompletion_single_source_labels_nodup_witness :
    ((getMethodCompletions [] personVarSymbols "p.").map
      (fun item => item.label)).Nodup := by
  exact memberCompletion_single_source_labels_nodup [] personVarSymbols "p." "p"
    ⟨"p", astNodeToRange, "Person", "", false⟩ personGrimoire (by decide) rfl
    (by decide) (by decide) rfl rfl (by decide)

/-- C9: after a sequence of updates and one more `update(uri, content)`,
`get(uri)` returns a record whose text is `content` and whose version is
the previous version plus one (1 on a fresh URI, since `versionOf` is 0
there), strictly greater than every version stored for that URI after
any earlier prefix of the update sequence. -/
theorem update_get_version_strictly_increasing (cat : AList GrimoireInfo)
    (us : List (String × String × List Stmt)) (uri content : String)
    (program : List Stmt) :
    ∃ d : Document,
      alookup (updateDocument cat (applyUpdates cat [] us) uri content program)
          uri = some d ∧
      d.content = content ∧
      d.version = versionOf (applyUpdates cat [] us) uri + 1 ∧
      ∀ i, i ≤ us.length → ∀ d0 : Document,
        alookup (applyUpdates cat [] (us.take i)) uri = some d0 →
        d0.version < d.version := by
  refine ⟨⟨uri, content, buildSymbolTable cat program,
      getNextVersion (applyUpdates cat [] us) uri⟩, ?_, rfl, ?_, ?_⟩
  · show alookup (ainsert (applyUpdates cat [] us) uri _) uri = some _
    exact alookup_ainsert_self _ _ _
  · exact getNextVersion_eq _ _
  · intro i hi d0 h0
    have h1 : versionOf (applyUpdates cat [] (us.take i)) uri = d0.version := by
      unfold versionOf
      rw [h0]
    have h2 : versionOf (applyUpdates cat [] (us.take i)) uri
        ≤ versionOf (applyUpdates cat [] us) uri := by
      conv_rhs => rw [← List.take_append_drop i us]
      rw [applyUpdates_append]
      exact versionOf_applyUpdates_le _ _ _ _
    show d0.version < getNextVersion (applyUpdates cat [] us) uri
    rw [getNextVersion_eq]
    omega

/-- C9, witness: two updates of `u` then `update(u, "c")` give text `c`
and version 3. -/
theorem update_get_version_strictly_increasing_witness :
    ∃ d : Document,
      alookup (updateDocument []
          (applyUpdates [] [] [("u", "a", []), ("u", "b", [])]) "u" "c" [])
          "u" = some d ∧
      d.content = "c" ∧ d.version = 3 := by
  obtain ⟨d, h1, h2, h3, h4⟩ :=
    update_get_version_strictly_increasing [] [("u", "a", []), ("u", "b", [])]
      "u" "c" []
  refine ⟨d, h1, h2, ?_⟩
  rw [h3]
  decide

/-- C10: each of a class's methods is inserted into the flat
per-document function table under its bare name with the owner class
set, the constructor under the key `"init"`; and since insertion
overwrites, a class method shadows a same-named top-level function
defined earlier in the document. -/
theorem class_methods_flattened_shadowing :
    (∀ (cat : AList GrimoireInfo) (gname : String) (inherits doc : Option String)
        (initM : Option FuncDef) (methods : List FuncDef) (symbols : SymbolTable)
        (fd : FuncDef), fd ∈ methods → (methods.map FuncDef.name).Nodup →
        alookup (analyzeGrimoire cat gname inherits doc initM methods symbols).spells
            fd.name
          = some (mkMethodSymbol gname fd)) ∧
    (∀ (cat : AList GrimoireInfo) (gname : String) (inherits doc : Option String)
        (ifd : FuncDef) (methods : List FuncDef) (symbols : SymbolTable),
        "init" ∉ methods.map FuncDef.name →
        alookup (analyzeGrimoire cat gname inherits doc (some ifd) methods
            symbols).spells "init"
          = some (mkInitSymbol gname ifd)) ∧
    (∀ (cat : AList GrimoireInfo) (topFd m : FuncDef) (gname : String)
        (inherits doc : Option String), m.name = topFd.name →
        alookup (buildSymbolTable cat
            [Stmt.spellDef topFd,
             Stmt.grimDef gname inherits doc none [m]]).spells topFd.name
          = some (mkMethodSymbol gname m)) := by
  have hmem : ∀ (cat : AList GrimoireInfo) (gname : String)
      (inherits doc : Option String) (initM : Option FuncDef)
      (methods : List FuncDef) (symbols : SymbolTable) (fd : FuncDef),
      fd ∈ methods → (methods.map FuncDef.name).Nodup →
      alookup (analyzeGrimoire cat gname inherits doc initM methods symbols).spells
          fd.name
        = some (mkMethodSymbol gname fd) := by
    intro cat gname inherits doc initM methods symbols fd hfd hnd
    rw [analyzeGrimoire_spells]
    exact grimFold_mem_spells _ _ _ _ _ hfd hnd
  refine ⟨hmem, ?_, ?_⟩
  · intro cat gname inherits doc ifd methods symbols hinit
    rw [analyzeGrimoire_spells]
    rw [grimFold_preserves_spells _ _ _ _ _ hinit]
    show alookup (ainsert (analyzeBlockStmts cat ifd.body symbols).spells "init"
        (mkInitSymbol gname ifd)) "init" = _
    exact alookup_ainsert_self _ _ _
  · intro cat topFd m gname inherits doc hname
    show alookup (analyzeGrimoire cat gname inherits doc none [m]
        (analyzeSpell cat topFd emptySymbolTable)).spells topFd.name = _
    rw [← hname]
    exact hmem cat gname inherits doc none [m] _ m (List.mem_singleton.mpr rfl)
      (by simp)

/-- C10, witness: a top-level `greet` followed by class `G` with a
method `greet` leaves the flat table entry pointing at the class method
(owner `G`). -/
theorem class_methods_flattened_shadowing_witness :
    alookup (buildSymbolTable []
        [Stmt.spellDef (.mk "greet" [] none []),
         Stmt.grimDef "G" none none none [.mk "greet" ["x"] none []]]).spells
        "greet"
      = some (mkMethodSymbol "G" (.mk "greet" ["x"] none [])) :=
  (class_methods_flattened_shadowing).2.2 [] (.mk "greet" [] none [])
    (.mk "greet" ["x"] none []) "G" none none rfl

end CarrionLSP
